import Mathlib

/-!
Shallow embedding of `src/sizeCounter.py`.

The script walks the current working directory, and for every file whose
name ends with ".cs" it opens the file in text mode, reads its first 20
characters, and when the literal substring "///Countable" occurs in that
prefix it adds the file's on-disk size (st_size) to a running accumulator
and prints one line
  File <path>: <size> KiB, so far at: <total> KiB
with both quantities divided by 1024 and formatted with Python's ".2g"
(two significant figures).

The traversal produced by os.walk is modelled as the flattened list of
file entries in traversal order.  A file's text content is an
`Option String`: `none` models an open/read/decode failure, which the
script does not catch, so the run aborts there.
-/

namespace SizeCounter

/-- One file met during the walk: the directory path yielded by os.walk,
the bare filename, the decoded text content (`none` when opening or
reading the file raises), and the st_size reported by os.stat. -/
structure FileEntry where
  dirpath : String
  name : String
  content : Option String
  st_size : Nat
deriving DecidableEq, Inhabited

/-- One line printed by the script, in structured form: the joined path,
the file's st_size and the value of the accumulator just after adding it. -/
structure OutLine where
  path : String
  fileSize : Nat
  runningTotal : Nat
deriving DecidableEq, Inhabited

/-- Boolean list-prefix test (character lists). -/
def isPrefixB : List Char → List Char → Bool
  | [], _ => true
  | _ :: _, [] => false
  | a :: as, b :: bs => a == b && isPrefixB as bs

/-- Python's `str.endswith`: the suffix's characters are a suffix of the
string's characters. -/
def pyEndsWith (s suffix : String) : Bool :=
  isPrefixB suffix.data.reverse s.data.reverse

/-- Boolean contiguous-substring test, `needle` inside `hay`; this is
Python's `needle in hay` on strings. -/
def isInfixB (needle : List Char) : List Char → Bool
  | [] => needle.isEmpty
  | c :: rest => isPrefixB needle (c :: rest) || isInfixB needle rest

/-- The literal marker from line 10 of the script (`r"///Countable"`). -/
def marker : String := "///Countable"

/-- Line 10 of the script: `r"///Countable" in f.read(20)` — the marker is
searched for in the first 20 characters of the file's text content. -/
def hasMarker (c : String) : Bool :=
  isInfixB marker.data (c.data.take 20)

/-- `os.path.join(dirpath, file)` as used on line 8, for POSIX paths. -/
def joinPath (d n : String) : String :=
  if isPrefixB "/".data n.data then n
  else if d = "" || pyEndsWith d "/" then d ++ n
  else d ++ "/" ++ n

/-- Number of decimal digits of `n` (for `n ≥ 1`), fuelled recursion. -/
def numDigitsAux : Nat → Nat → Nat
  | _, 0 => 0
  | n, fuel + 1 => if n < 10 then 1 else 1 + numDigitsAux (n / 10) fuel

/-- Number of decimal digits of `n` (meaningful for `n ≥ 1`). -/
def numDigits (n : Nat) : Nat := numDigitsAux n n

/-- Smallest `k ≥ 1` with `a * 10^k ≥ b`, fuelled recursion (used for the
decimal exponent of a positive rational `a/b < 1`). -/
def findK : Nat → Nat → Nat → Nat
  | _, _, 0 => 1
  | a, b, fuel + 1 => if b ≤ a * 10 then 1 else 1 + findK (a * 10) b fuel

/-- Round `a/b` (with `b > 0`) to the nearest integer, ties to even —
the rounding Python uses when formatting an exactly-representable float. -/
def rne2 (a b : Nat) : Nat :=
  let f := a / b
  let r := 2 * (a % b)
  if r < b then f else if b < r then f + 1 else if f % 2 = 0 then f else f + 1

/-- Two significant digits of the positive rational `a/b`: returns
`(d, e)` with `10 ≤ d ≤ 99` such that `a/b` rounds to `d * 10^(e-1)`. -/
def sig2 (a b : Nat) : Nat × Int :=
  let e0 : Int := if b ≤ a then (numDigits (a / b) : Int) - 1 else -(findK a b b : Int)
  let d : Nat := if 1 ≤ e0 then rne2 a (b * 10 ^ (e0 - 1).toNat)
                 else rne2 (a * 10 ^ (1 - e0).toNat) b
  if d = 100 then (10, e0 + 1) else (d, e0)

/-- Render two significant digits `d` (with `10 ≤ d ≤ 99`) at decimal
exponent `e` the way Python's ".2g" does: fixed notation with trailing
zeros stripped when `-4 ≤ e < 2`, otherwise scientific notation with a
signed two-digit exponent. -/
def render2 (d : Nat) (e : Int) : String :=
  if -4 ≤ e ∧ e < 2 then
    if e = 1 then toString d
    else
      let fdigits : List Char :=
        if e = 0 then [Nat.digitChar (d % 10)]
        else List.replicate ((-e).toNat - 1) '0' ++ (toString d).data
      let fs := (fdigits.reverse.dropWhile (fun ch => ch == '0')).reverse
      let ip : String := if e = 0 then toString (d / 10) else "0"
      if fs.isEmpty then ip else ip ++ "." ++ String.mk fs
  else
    let mant : String :=
      if d % 10 = 0 then toString (d / 10)
      else toString (d / 10) ++ "." ++ toString (d % 10)
    let ea : Nat := e.natAbs
    let es : String := if ea < 10 then "0" ++ toString ea else toString ea
    mant ++ (if 0 ≤ e then "e+" else "e-") ++ es

/-- Python's `".2g"` formatting of the non-negative rational value `a/b`
(the byte counts divided by 1024 are non-negative rationals, represented
here by numerator and positive denominator; the rendering depends only on
the ratio). -/
def format2gNN (a b : Nat) : String :=
  if a = 0 then "0"
  else
    let p := sig2 a b
    render2 p.1 p.2

/-- The f-string of line 13, rendering one structured output line:
`File {p}: {st_size / 1024 :.2g} KiB, so far at: {size / 1024 :.2g} KiB`;
each byte count is divided by 1024 and formatted with ".2g". -/
def lineFor (l : OutLine) : String :=
  "File " ++ l.path ++ ": " ++ format2gNN l.fileSize 1024 ++
    " KiB, so far at: " ++ format2gNN l.runningTotal 1024 ++ " KiB"

/-- The loop body of lines 5-13, folded over the remaining traversal
sequence with accumulator `size` (line 3 starts it at 0): for a ".cs"
file the script opens it (abort with `none` when that fails), checks the
marker in the first 20 characters, and on a match adds st_size to the
accumulator and emits a line.  Returns the emitted lines and, when no
read failed, the final accumulator. -/
def runAux : Nat → List FileEntry → List OutLine × Option Nat
  | size, [] => ([], some size)
  | size, e :: rest =>
    if pyEndsWith e.name ".cs" then
      match e.content with
      | none => ([], none)
      | some c =>
        if hasMarker c then
          let size2 := size + e.st_size
          let r := runAux size2 rest
          (⟨joinPath e.dirpath e.name, e.st_size, size2⟩ :: r.1, r.2)
        else runAux size rest
    else runAux size rest

/-- The whole run of the script on a traversal sequence. -/
def run (es : List FileEntry) : List OutLine × Option Nat := runAux 0 es

/-- The text actually printed to standard output, one string per line. -/
def stdoutOf (es : List FileEntry) : List String := (run es).1.map lineFor

/-- A file entry is countable when its name ends with ".cs" and its text
content is readable and carries the marker in its first 20 characters. -/
def countedB (e : FileEntry) : Bool :=
  pyEndsWith e.name ".cs" &&
    (match e.content with
     | some c => hasMarker c
     | none => false)

/-- A candidate ".cs" entry is readable when its content is present;
entries that do not pass the extension filter are never opened. -/
def readable (e : FileEntry) : Bool :=
  !(pyEndsWith e.name ".cs") || e.content.isSome

/-- The expected output events for a list of (already filtered) countable
entries starting from accumulator value `t`: one event per entry, carrying
the running total. -/
def specEvents : Nat → List FileEntry → List OutLine
  | _, [] => []
  | t, e :: rest =>
    ⟨joinPath e.dirpath e.name, e.st_size, t + e.st_size⟩ :: specEvents (t + e.st_size) rest

/-- Concrete entry: a countable ".cs" file of 10240 bytes whose content
starts with the marker. -/
def wA : FileEntry := ⟨".", "a.cs", some "///Countable demo", 10240⟩

/-- Concrete entry: a countable ".cs" file of 5120 bytes whose content
starts with the marker. -/
def wB : FileEntry := ⟨".", "b.cs", some "///Countable other", 5120⟩

/-- Concrete entry: a ".txt" file that carries the marker. -/
def wT : FileEntry := ⟨".", "notes.txt", some "///Countable in text", 999⟩

/-- Concrete entry: a ".cs" file without the marker. -/
def wN : FileEntry := ⟨"./sub", "plain.cs", some "no marker here", 2048⟩

/-- Concrete entry: a ".cs" file whose marker starts only at character 20. -/
def wLate : FileEntry := ⟨".", "late.cs", some "12345678901234567890///Countable", 4096⟩

/-- Concrete entry: a ".cs" file whose open/read raises. -/
def wBad : FileEntry := ⟨".", "bad.cs", none, 123⟩

/-- Concrete entry: an upper-case ".CS" file carrying the marker. -/
def wCS : FileEntry := ⟨".", "upper.CS", some "///Countable upper", 64⟩

/-- Concrete entry: a file whose whole name is ".cs", carrying the marker. -/
def wDot : FileEntry := ⟨".", ".cs", some "///Countable bare", 77⟩

/-! ### Supporting lemmas -/

theorem isPrefixB_eq_of_length :
    ∀ (l₁ l₂ l : List Char), isPrefixB l₁ l = true → isPrefixB l₂ l = true →
      l₁.length = l₂.length → l₁ = l₂ := by
  intro l₁
  induction l₁ with
  | nil =>
    intro l₂ l _ _ hlen
    exact (List.length_eq_zero.mp hlen.symm).symm
  | cons a as ih =>
    intro l₂ l h1 h2 hlen
    cases l₂ with
    | nil => simp at hlen
    | cons b bs =>
      cases l with
      | nil => simp [isPrefixB] at h1
      | cons c t =>
        simp only [isPrefixB, Bool.and_eq_true, beq_iff_eq] at h1 h2
        simp only [List.length_cons, Nat.succ.injEq] at hlen
        rw [h1.1, h2.1, ih bs t h1.2 h2.2 hlen]

theorem pyEndsWith_cs_false_of_upper (s : String)
    (h : pyEndsWith s ".CS" = true ∨ pyEndsWith s ".Cs" = true ∨
      pyEndsWith s ".cS" = true) :
    pyEndsWith s ".cs" = false := by
  cases hcs : pyEndsWith s ".cs" with
  | false => rfl
  | true =>
    exfalso
    rcases h with h | h | h
    · exact absurd (isPrefixB_eq_of_length _ _ _ h hcs (by decide)) (by decide)
    · exact absurd (isPrefixB_eq_of_length _ _ _ h hcs (by decide)) (by decide)
    · exact absurd (isPrefixB_eq_of_length _ _ _ h hcs (by decide)) (by decide)

theorem runAux_eq_spec (es : List FileEntry) :
    (∀ e ∈ es, readable e = true) → ∀ n,
      runAux n es = (specEvents n (es.filter countedB),
        some (n + ((es.filter countedB).map FileEntry.st_size).sum)) := by
  induction es with
  | nil => intro _ n; simp [runAux, specEvents]
  | cons e rest ih =>
    intro h n
    have he : readable e = true := h e (List.mem_cons_self e rest)
    have hr : ∀ x ∈ rest, readable x = true := fun x hx => h x (List.mem_cons_of_mem e hx)
    cases hcs : pyEndsWith e.name ".cs" with
    | false =>
      simp [runAux, hcs, List.filter_cons, countedB, ih hr n]
    | true =>
      cases hc : e.content with
      | none => simp [readable, hcs, hc] at he
      | some c =>
        cases hm : hasMarker c with
        | false =>
          simp [runAux, hcs, hc, hm, List.filter_cons, countedB, ih hr n]
        | true =>
          simp [runAux, hcs, hc, hm, List.filter_cons, countedB, specEvents,
            ih hr (n + e.st_size), Nat.add_assoc]

theorem runAux_skip (e : FileEntry) (h : pyEndsWith e.name ".cs" = false)
    (l₁ : List FileEntry) : ∀ (l₂ : List FileEntry) (n : Nat),
      runAux n (l₁ ++ e :: l₂) = runAux n (l₁ ++ l₂) := by
  induction l₁ with
  | nil => intro l₂ n; simp [runAux, h]
  | cons f l₁ ih =>
    intro l₂ n
    cases hf : pyEndsWith f.name ".cs" with
    | false => simpa [runAux, hf] using ih l₂ n
    | true =>
      cases hc : f.content with
      | none => simp [runAux, hf, hc]
      | some c =>
        cases hm : hasMarker c with
        | false => simpa [runAux, hf, hc, hm] using ih l₂ n
        | true => simp [runAux, hf, hc, hm, ih l₂ (n + f.st_size)]

theorem runAux_abort (bad : FileEntry) (hb1 : pyEndsWith bad.name ".cs" = true)
    (hb2 : bad.content = none) (es₂ : List FileEntry) (es₁ : List FileEntry) :
    (∀ e ∈ es₁, readable e = true) → ∀ n,
      runAux n (es₁ ++ bad :: es₂) = ((runAux n es₁).1, none) := by
  induction es₁ with
  | nil => intro _ n; simp [runAux, hb1, hb2]
  | cons f rest ih =>
    intro h n
    have hf' : readable f = true := h f (List.mem_cons_self f rest)
    have hr : ∀ x ∈ rest, readable x = true := fun x hx => h x (List.mem_cons_of_mem f hx)
    cases hf : pyEndsWith f.name ".cs" with
    | false => simpa [runAux, hf] using ih hr n
    | true =>
      cases hc : f.content with
      | none => simp [readable, hf, hc] at hf'
      | some c =>
        cases hm : hasMarker c with
        | false => simpa [runAux, hf, hc, hm] using ih hr n
        | true => simp [runAux, hf, hc, hm, ih hr (n + f.st_size)]

theorem runAux_total_ge (es : List FileEntry) :
    ∀ n, ∀ x ∈ (runAux n es).1, n ≤ x.runningTotal := by
  induction es with
  | nil => intro n x hx; simp [runAux] at hx
  | cons e rest ih =>
    intro n x hx
    cases hcs : pyEndsWith e.name ".cs" with
    | false =>
      rw [show runAux n (e :: rest) = runAux n rest by simp [runAux, hcs]] at hx
      exact ih n x hx
    | true =>
      cases hc : e.content with
      | none => simp [runAux, hcs, hc] at hx
      | some c =>
        cases hm : hasMarker c with
        | false =>
          rw [show runAux n (e :: rest) = runAux n rest by simp [runAux, hcs, hc, hm]] at hx
          exact ih n x hx
        | true =>
          simp only [runAux, hcs, hc, hm, if_true, List.mem_cons] at hx
          rcases hx with hx | hx
          · rw [hx]; exact Nat.le_add_right n e.st_size
          · exact le_trans (Nat.le_add_right n e.st_size) (ih (n + e.st_size) x hx)

theorem runAux_chain (es : List FileEntry) :
    ∀ n, List.Chain' (fun a b => a.runningTotal ≤ b.runningTotal) (runAux n es).1 := by
  induction es with
  | nil => intro n; simp [runAux]
  | cons e rest ih =>
    intro n
    cases hcs : pyEndsWith e.name ".cs" with
    | false => simpa [runAux, hcs] using ih n
    | true =>
      cases hc : e.content with
      | none => simp [runAux, hcs, hc]
      | some c =>
        cases hm : hasMarker c with
        | false => simpa [runAux, hcs, hc, hm] using ih n
        | true =>
          simp only [runAux, hcs, hc, hm, if_true]
          rw [List.chain'_cons']
          refine ⟨fun y hy => ?_, ih (n + e.st_size)⟩
          exact runAux_total_ge rest (n + e.st_size) y (List.mem_of_mem_head? hy)

theorem specEvents_length (l : List FileEntry) :
    ∀ t, (specEvents t l).length = l.length := by
  induction l with
  | nil => intro t; simp [specEvents]
  | cons e rest ih => intro t; simp [specEvents, ih (t + e.st_size)]

theorem specEvents_getD (l : List FileEntry) :
    ∀ (t k : Nat), k < l.length →
      ((specEvents t l).getD k default).runningTotal
        = t + ((l.map FileEntry.st_size).take (k + 1)).sum := by
  induction l with
  | nil => intro t k hk; simp at hk
  | cons e rest ih =>
    intro t k hk
    cases k with
    | zero => simp [specEvents]
    | succ k =>
      have hk' : k < rest.length := by simpa using hk
      have hstep : (specEvents t (e :: rest)).getD (k + 1) default
          = (specEvents (t + e.st_size) rest).getD k default := by
        simp [specEvents]
      rw [hstep, ih (t + e.st_size) k hk']
      simp [Nat.add_assoc]

/-! ### Claim theorems -/

/-- C1: for every traversal sequence in which each ".cs" candidate can be
read, the final value of the accumulator is the sum of the on-disk sizes
(st_size) of exactly those files whose name ends with ".cs" and whose
first 20 characters contain the substring "///Countable". -/
theorem claim_C1_total_eq_sum (es : List FileEntry)
    (h : ∀ e ∈ es, readable e = true) :
    (run es).2 = some (((es.filter countedB).map FileEntry.st_size).sum) := by
  simp [run, runAux_eq_spec es h 0]

theorem claim_C1_witness :
    (run [wA, wT, wN, wLate]).2
      = some ((([wA, wT, wN, wLate].filter countedB).map FileEntry.st_size).sum) :=
  claim_C1_total_eq_sum [wA, wT, wN, wLate] (by decide)

/-- C2: a ".cs" file whose first 20 characters contain the marker is
counted (one line, st_size added); a ".cs" file in which the marker does
occur in the content but not inside the first 20 characters is not
counted (no line, accumulator untouched). -/
theorem claim_C2_truncated_read (e : FileEntry) (c : String)
    (h1 : pyEndsWith e.name ".cs" = true) (h2 : e.content = some c) :
    (hasMarker c = true →
      run [e] = ([⟨joinPath e.dirpath e.name, e.st_size, e.st_size⟩], some e.st_size)) ∧
    (isInfixB marker.data c.data = true → hasMarker c = false →
      run [e] = ([], some 0)) := by
  constructor
  · intro hm; simp [run, runAux, h1, h2, hm]
  · intro _ hm; simp [run, runAux, h1, h2, hm]

theorem claim_C2_witness :
    run [wLate] = ([], some 0) :=
  (claim_C2_truncated_read wLate "12345678901234567890///Countable"
    (by decide) rfl).2 (by decide) (by decide)

/-- C3: a file whose name does not end with ".cs" is never counted and
contributes nothing: deleting it from the traversal sequence leaves the
whole run (printed lines and final accumulator) unchanged, whatever its
content. -/
theorem claim_C3_extension_filter (e : FileEntry)
    (h : pyEndsWith e.name ".cs" = false) (l₁ l₂ : List FileEntry) :
    run (l₁ ++ e :: l₂) = run (l₁ ++ l₂) := by
  simp [run, runAux_skip e h l₁ l₂ 0]

theorem claim_C3_witness :
    run ([wA] ++ wT :: [wN]) = run ([wA] ++ [wN]) :=
  claim_C3_extension_filter wT (by decide) [wA] [wN]

/-- C4: when a candidate ".cs" file cannot be opened or read, the error
propagates: the run stops right there, the files after it are never
examined and contribute nothing, no recovery happens, and the lines
emitted before the failure are the only output (final total: none). -/
theorem claim_C4_fail_fast (es₁ es₂ : List FileEntry) (bad : FileEntry)
    (hb1 : pyEndsWith bad.name ".cs" = true) (hb2 : bad.content = none)
    (h : ∀ e ∈ es₁, readable e = true) :
    run (es₁ ++ bad :: es₂) = ((run es₁).1, none) := by
  simp [run, runAux_abort bad hb1 hb2 es₂ es₁ h 0]

theorem claim_C4_witness :
    run ([wA] ++ wBad :: [wB]) = ((run [wA]).1, none) :=
  claim_C4_fail_fast [wA] [wB] wBad (by decide) rfl (by decide)

/-- C5: the whole standard output is exactly one line per counted file,
each line rendered by the f-string of line 13 — the file's path, its
st_size divided by 1024 in ".2g" format, and the running total divided by
1024 in ".2g" format — and nothing else is printed. -/
theorem claim_C5_output_lines (es : List FileEntry)
    (h : ∀ e ∈ es, readable e = true) :
    stdoutOf es = (specEvents 0 (es.filter countedB)).map lineFor ∧
    (stdoutOf es).length = (es.filter countedB).length := by
  have hrw := runAux_eq_spec es h 0
  refine ⟨?_, ?_⟩
  · simp [stdoutOf, run, hrw]
  · simp [stdoutOf, run, hrw, specEvents_length]

theorem claim_C5_witness :
    stdoutOf [wA, wT, wN, wB]
        = (specEvents 0 ([wA, wT, wN, wB].filter countedB)).map lineFor ∧
    (stdoutOf [wA, wT, wN, wB]).length = ([wA, wT, wN, wB].filter countedB).length :=
  claim_C5_output_lines [wA, wT, wN, wB] (by decide)

/-- C6: across the emitted lines of any run, even one cut short by a read
failure, the reported running total never decreases from one line to the
next. -/
theorem claim_C6_monotone_total (es : List FileEntry) :
    List.Chain' (fun a b => a.runningTotal ≤ b.runningTotal) (run es).1 :=
  runAux_chain es 0

/-- C7 as frozen is false: with a.cs (10240 bytes) and b.cs (5120 bytes)
both starting with the marker, the traversal order that visits b.cs first
prints running totals "5" then "15", not "10" then "15" — so the claimed
totals do not appear in every traversal order. -/
theorem claim_C7_counterexample :
    ¬ ((run [wB, wA]).1.map (fun l => format2gNN l.runningTotal 1024)
        = ["10", "15"]) := by
  decide

/-- C7 amended: the two files produce exactly two lines in either order,
with running totals "10 KiB" then "15 KiB" when a.cs is traversed first
and "5 KiB" then "15 KiB" when b.cs is traversed first; the final
accumulator is 15360 bytes (15 KiB) in both orders. -/
theorem claim_C7_two_files :
    (stdoutOf [wA, wB]).length = 2 ∧ (stdoutOf [wB, wA]).length = 2 ∧
    (run [wA, wB]).1.map (fun l => format2gNN l.runningTotal 1024) = ["10", "15"] ∧
    (run [wB, wA]).1.map (fun l => format2gNN l.runningTotal 1024) = ["5", "15"] ∧
    (run [wA, wB]).2 = some 15360 ∧ (run [wB, wA]).2 = some 15360 := by
  decide

/-- C8: the extension filter is case-sensitive — a name ending in ".CS",
".Cs" or ".cS" never passes it, so such a file is never counted and
deleting it from the traversal leaves the run unchanged, regardless of
its content. -/
theorem claim_C8_case_sensitive (e : FileEntry) (l₁ l₂ : List FileEntry)
    (h : pyEndsWith e.name ".CS" = true ∨ pyEndsWith e.name ".Cs" = true ∨
      pyEndsWith e.name ".cS" = true) :
    run (l₁ ++ e :: l₂) = run (l₁ ++ l₂) := by
  have hf : pyEndsWith e.name ".cs" = false := pyEndsWith_cs_false_of_upper e.name h
  simp [run, runAux_skip e hf l₁ l₂ 0]

theorem claim_C8_witness :
    run ([] ++ wCS :: []) = run ([] ++ []) :=
  claim_C8_case_sensitive wCS [] [] (Or.inl (by decide))

/-- C9: a file whose entire name is exactly ".cs" passes the extension
filter, and when its first 20 characters contain the marker it is counted:
one line is emitted and its st_size enters the accumulator. -/
theorem claim_C9_bare_extension (e : FileEntry) (c : String)
    (h1 : e.name = ".cs") (h2 : e.content = some c) (h3 : hasMarker c = true) :
    pyEndsWith e.name ".cs" = true ∧
    run [e] = ([⟨joinPath e.dirpath e.name, e.st_size, e.st_size⟩], some e.st_size) := by
  have hcs : pyEndsWith e.name ".cs" = true := by rw [h1]; decide
  exact ⟨hcs, by simp [run, runAux, hcs, h2, h3]⟩

theorem claim_C9_witness :
    pyEndsWith wDot.name ".cs" = true ∧
    run [wDot] = ([⟨joinPath wDot.dirpath wDot.name, wDot.st_size, wDot.st_size⟩],
      some wDot.st_size) :=
  claim_C9_bare_extension wDot "///Countable bare" rfl rfl (by decide)

/-- C10: on every readable traversal, the running total carried by the
k-th emitted line equals the sum of the st_size of the first k+1 counted
files in traversal order — each counted file enters the accumulator
exactly once, at the moment its line is emitted. -/
theorem claim_C10_partial_sums (es : List FileEntry)
    (h : ∀ e ∈ es, readable e = true) :
    ∀ k, k < (run es).1.length →
      ((run es).1.getD k default).runningTotal
        = (((es.filter countedB).map FileEntry.st_size).take (k + 1)).sum := by
  intro k hk
  have h1 : (run es).1 = specEvents 0 (es.filter countedB) := by
    simp [run, runAux_eq_spec es h 0]
  rw [h1] at hk ⊢
  have hk' : k < (es.filter countedB).length := by
    simpa [specEvents_length] using hk
  simpa using specEvents_getD (es.filter countedB) 0 k hk'

theorem claim_C10_witness :
    ((run [wA, wT, wB]).1.getD 1 default).runningTotal
      = ((([wA, wT, wB].filter countedB).map FileEntry.st_size).take 2).sum :=
  claim_C10_partial_sums [wA, wT, wB] (by decide) 1 (by decide)

end SizeCounter
